import Mathlib

/-!
# FastAPI-Wallets — formal model of the wallet balance engine

A shallow embedding of the wallet service in `src/app`:

* `app/models/wallet.py` — the `wallets` table: a `PG_UUID` primary key
  (random `uuid.uuid4` default) and a `Numeric(10, 2)` balance defaulting
  to `0.00`.
* `app/schemas.py` — `WalletOperation` (an `operation_type` of `DEPOSIT`
  or `WITHDRAW` and an `amount: float = Field(gt=0)`) and `WalletResponse`.
* `app/routers/wallets.py` — the four route handlers `create_wallet`,
  `delete_wallet`, `update_wallet_balance` and `get_wallet_balance`.

Monetary values are exact rationals `ℚ`.  The `amount: float` request
field is modelled by the pair of rationals it induces: the exact value of
the parsed IEEE-754 binary64 (which the source's withdraw guard
`wallet.balance < operation.amount` compares against — `Decimal` and
`float` compare exactly in Python) and the value of
`Decimal(str(operation.amount))` (which the source's arithmetic uses).
Committed balances pass through the `Numeric(10, 2)` column: rounded
half away from zero to 2 fractional digits and rejected with a numeric
overflow error above `99999999.99`.

The persisted table is a function from identifiers to optional balances;
SQLAlchemy sessions are modelled by explicit state passing: each handler
maps the table before the request to the outcome and the table after the
transaction ends (commit on success, rollback/no-commit on a raised
exception).
-/

namespace FastAPIWallets

/-- Wallet identifiers: 128-bit `uuid.UUID` values, stored in the
`PG_UUID(as_uuid=True)` primary-key column of `app/models/wallet.py`. -/
abbrev UUID : Type := Fin (2 ^ 128)

/-- The persisted `wallets` table (`app/models/wallet.py`): a map from
identifier to the stored balance, `none` when no row with that id exists. -/
def Store : Type := UUID → Option ℚ

/-- Writing one row of the table (the raw row write that a successful
`session.commit()` makes durable; the `Numeric(10, 2)` column coercion is
applied before this, see `numericCommit`). -/
def Store.set (s : Store) (id : UUID) (b : ℚ) : Store :=
  fun j => if j = id then some b else s j

/-- Deleting a row: `await session.delete(wallet)` followed by
`session.commit()`. -/
def Store.erase (s : Store) (id : UUID) : Store :=
  fun j => if j = id then none else s j

/-- A decimal quantity with at most 2 fractional digits — the value set
of the `Numeric(10, 2)` column scale. -/
def scale2 (q : ℚ) : Prop :=
  ∃ k : ℤ, q = (k : ℚ) / 100

/-- Rounding to 2 fractional digits, half away from zero: the coercion
PostgreSQL applies when storing a value into a `numeric(10, 2)` column
(`app/models/wallet.py` declares `Numeric(10, 2)`). -/
def roundScale2 (q : ℚ) : ℚ :=
  if 0 ≤ q then ((⌊q * 100 + 1 / 2⌋ : ℤ) : ℚ) / 100
  else -(((⌊-q * 100 + 1 / 2⌋ : ℤ) : ℚ) / 100)

/-- Committing a balance through the `Numeric(10, 2)` column: the value
is rounded to scale 2, and the write is rejected (PostgreSQL "numeric
field overflow", surfacing as a storage error) when the rounded value
exceeds the 8 integer digits the precision leaves, i.e. `99999999.99`. -/
def numericCommit (q : ℚ) : Option ℚ :=
  if |roundScale2 q| ≤ 99999999.99 then some (roundScale2 q) else none

/-- The `OperationType` enumeration from `app/schemas.py`: the two
request kinds. -/
inductive OperationType
  | DEPOSIT
  | WITHDRAW
  deriving DecidableEq

/-- A monetary amount as it arrives through the `amount: float` field of
`app/schemas.py`: `val` is the exact rational value of the binary64
float produced by parsing the request (what the comparison
`wallet.balance < operation.amount` sees — Python compares `Decimal`
against `float` exactly), and `dec` is the value of
`Decimal(str(operation.amount))` (what the handler's arithmetic uses).

The two propositional fields record the facts this development uses
about IEEE-754 binary64 parsing and Python's shortest round-trip
printing, both true of every pair the runtime produces:
`str` of a positive float is a positive decimal literal; and no decimal
of scale 2 (within the numeric column's magnitude, far below where a
binary64 ulp reaches 0.01) lies at or above the float's exact value yet
strictly below the printed decimal — the printed decimal is within half
an ulp of the float, and shortest printing would otherwise have emitted
that scale-2 decimal.  The type over-approximates: any pair satisfying
the recorded facts is admitted, which only strengthens the universally
quantified theorems below; the refutations instantiate a genuine pair
(`amt01`, the parse of `0.1`). -/
structure FloatAmount where
  val : ℚ
  dec : ℚ
  dec_pos : 0 < val → 0 < dec
  round_faithful : ∀ q : ℚ, scale2 q → |q| ≤ 10 ^ 9 → val ≤ q → dec ≤ q

/-- The `WalletOperation` request schema from `app/schemas.py`: an
operation kind and an amount.  Pydantic declares
`amount: float = Field(gt=0)`; the amount is carried with both its
binary64 value and its `Decimal(str(...))` value. -/
structure WalletOperation where
  operation_type : OperationType
  amount : FloatAmount

/-- Outcome of one `POST /{wallet_id}/operation` request as seen by the
caller of `update_wallet_balance` (`app/routers/wallets.py`):
success with the refreshed stored balance, one of the raised domain
errors, or a storage-level failure (the commit raising, e.g. numeric
field overflow — a 500, not a domain error). -/
inductive ApplyResult
  | ok (balance : ℚ)
  | notFound
  | insufficientFunds
  | invalidAmount
  | storageError
  deriving DecidableEq

/-- The handler body of `update_wallet_balance`
(`app/routers/wallets.py`), reached only with an already-validated
operation: `SELECT ... FOR UPDATE` the row, raise 404 `"Wallet not
found"` if absent; on `DEPOSIT` add `Decimal(str(amount))`; on
`WITHDRAW` raise 400 `"Insufficient funds"` if
`wallet.balance < operation.amount` — the stored decimal compared
against the raw binary float — else subtract `Decimal(str(amount))`;
then `session.commit()` pushes the new balance through the
`Numeric(10, 2)` column and `session.refresh` re-reads the stored
(rounded) value for the response.  Returns the outcome and the table
after the transaction ends (unchanged on every raised exception or
failed commit, since nothing was committed). -/
def update_wallet_balance (wallet_id : UUID) (operation : WalletOperation)
    (s : Store) : ApplyResult × Store :=
  match s wallet_id with
  | none => (ApplyResult.notFound, s)
  | some balance =>
    match operation.operation_type with
    | OperationType.DEPOSIT =>
      match numericCommit (balance + operation.amount.dec) with
      | some stored => (ApplyResult.ok stored, s.set wallet_id stored)
      | none => (ApplyResult.storageError, s)
    | OperationType.WITHDRAW =>
      if balance < operation.amount.val then
        (ApplyResult.insufficientFunds, s)
      else
        match numericCommit (balance - operation.amount.dec) with
        | some stored => (ApplyResult.ok stored, s.set wallet_id stored)
        | none => (ApplyResult.storageError, s)

/-- Outcome of the full route, including whether the
`SELECT ... FOR UPDATE` statement was ever issued (`lockTaken`). -/
structure ApplyOutcome where
  result : ApplyResult
  store : Store
  lockTaken : Bool

/-- The full `POST /{wallet_id}/operation` route behaviour: FastAPI runs
pydantic validation of `WalletOperation` before the handler body, and
`Field(gt=0)` rejects a non-positive float amount with a validation
error (modelled as `invalidAmount`) — the handler, and hence the locking
query and the transaction, never run in that case. -/
def apply (wallet_id : UUID) (operation : WalletOperation) (s : Store) :
    ApplyOutcome :=
  if operation.amount.val ≤ 0 then
    { result := ApplyResult.invalidAmount, store := s, lockTaken := false }
  else
    let r := update_wallet_balance wallet_id operation s
    { result := r.1, store := r.2, lockTaken := true }

/-- Outcome of `DELETE /{wallet_id}` (`delete_wallet` in
`app/routers/wallets.py`): 204 no content, or 404 `"Wallet not found"`. -/
inductive DeleteResult
  | ok
  | notFound
  deriving DecidableEq

/-- The `delete_wallet` handler (`app/routers/wallets.py`): select the
row, raise 404 if absent, otherwise delete it and commit — with no
condition on the stored balance. -/
def delete_wallet (wallet_id : UUID) (s : Store) : DeleteResult × Store :=
  match s wallet_id with
  | none => (DeleteResult.notFound, s)
  | some _ => (DeleteResult.ok, s.erase wallet_id)

/-- Outcome of `GET /{wallet_id}` (`get_wallet_balance`). -/
inductive GetResult
  | ok (balance : ℚ)
  | notFound
  deriving DecidableEq

/-- The `get_wallet_balance` handler (`app/routers/wallets.py`): plain
(non-locking) select; 404 if the row is absent, otherwise the wallet
with its balance. -/
def get_wallet_balance (wallet_id : UUID) (s : Store) : GetResult :=
  match s wallet_id with
  | none => GetResult.notFound
  | some b => GetResult.ok b

/-- The `create_wallet` handler (`app/routers/wallets.py`): `Wallet()`
is constructed with the column defaults of `app/models/wallet.py` —
`balance = 0.00` (already scale 2 and in range, so the column stores it
unchanged) and a fresh random `uuid.uuid4` identifier, passed here as
the `id` argument.  Returns the created wallet's balance and the new
table. -/
def create_wallet (id : UUID) (s : Store) : ℚ × Store :=
  (0, s.set id 0)

/-- Running `k` successive `POST /` create calls, the `n`-th drawing its
identifier from `gen n` (`uuid.uuid4` modelled as an identifier supply
consumed in order).  Returns the list of identifiers returned so far
(most recent first) and the resulting table. -/
def createMany (gen : ℕ → UUID) : ℕ → Store → List UUID × Store
  | 0, s => ([], s)
  | k + 1, s =>
    let p := createMany gen k s
    (gen k :: p.1, (create_wallet (gen k) p.2).2)

/-- The `Numeric(10, 2)` column type of `app/models/wallet.py`: a
decimal with scale 2 and at most 10 significant digits, i.e. `k / 100`
with `|k| ≤ 9999999999` (so the largest representable value is
`99999999.99`). -/
def Numeric10_2 (q : ℚ) : Prop :=
  ∃ k : ℤ, q = (k : ℚ) / 100 ∧ |k| ≤ 9999999999

/-- The invariant every committed wallet table satisfies, and the one
claim C1 is about: each stored balance is a scale-2 decimal within the
`Numeric(10, 2)` range (guaranteed by the column on every commit) and
non-negative. -/
def WellStored (s : Store) : Prop :=
  ∀ w b, s w = some b → scale2 b ∧ 0 ≤ b ∧ b ≤ 99999999.99

/-! ## Transport-layer representation (`app/schemas.py`)

The wire schema of the routing layer, as declared by the pydantic
models: which representation each monetary field crosses the boundary
in. -/

/-- Representation kinds a monetary value can cross the HTTP boundary
in. -/
inductive WireType
  | binaryFloat
  | decimalText
  deriving DecidableEq

/-- The `amount` field of `WalletOperation` is declared
`amount: float = Field(gt=0)` in `app/schemas.py`: a binary
floating-point field. -/
def WalletOperation.amountWireType : WireType := WireType.binaryFloat

/-- The `balance` field of `WalletResponse` is declared `balance: float`
in `app/schemas.py`: a binary floating-point field. -/
def WalletResponse.balanceWireType : WireType := WireType.binaryFloat

/-! ## Concurrent executions of `update_wallet_balance` on one wallet

The handler `update_wallet_balance` opens its transaction with
`SELECT ... FOR UPDATE`, so the database row lock is held from the read
until `session.commit()`.  A concurrent execution of several calls
against the same wallet is modelled as an interleaving of two events per
call: `start i` (call `i` acquires the row lock and reads the balance)
and `finish i` (call `i` computes from its read value, commits and
releases the lock).  The lock semantics — a second `SELECT ... FOR
UPDATE` on the same row blocks until the holder commits — is the
database's, modelled from the spec: `step` refuses a `start` while the
lock is held. -/

/-- The committed balance of one wallet after one
`update_wallet_balance` critical section that read balance `b`:
`DEPOSIT` adds and commits through the column; `WITHDRAW` leaves the
balance unchanged when the float guard fires (the handler raises before
mutating) and subtracts otherwise; a failed commit rolls back, leaving
the read balance in place. -/
def applyBalance (b : ℚ) (op : WalletOperation) : ℚ :=
  match op.operation_type with
  | OperationType.DEPOSIT =>
    match numericCommit (b + op.amount.dec) with
    | some stored => stored
    | none => b
  | OperationType.WITHDRAW =>
    if b < op.amount.val then b
    else
      match numericCommit (b - op.amount.dec) with
      | some stored => stored
      | none => b

/-- One scheduling event of a concurrent execution on a single wallet. -/
inductive Event
  | start (i : ℕ)
  | finish (i : ℕ)
  deriving DecidableEq

/-- State of a concurrent execution on one wallet: the committed
balance, the current lock holder together with the balance it read (if
any), and the calls that have already acquired the lock (most recent
first). -/
structure ExecState where
  balance : ℚ
  holder : Option (ℕ × ℚ)
  started : List ℕ
  deriving DecidableEq

/-- One scheduling step.  `start i` succeeds only when the row lock is
free (a concurrent `SELECT ... FOR UPDATE` blocks otherwise), call `i`
exists and has not run before; it records the read balance.  `finish i`
succeeds only for the current holder; it commits the balance computed
from the holder's read value and releases the lock. -/
def step (calls : List WalletOperation) (st : ExecState) :
    Event → Option ExecState
  | Event.start i =>
    match st.holder with
    | some _ => none
    | none =>
      if i ∈ st.started then none
      else
        match calls[i]? with
        | none => none
        | some _ => some ⟨st.balance, some (i, st.balance), i :: st.started⟩
  | Event.finish i =>
    match st.holder with
    | none => none
    | some (j, br) =>
      if i = j then
        match calls[i]? with
        | none => none
        | some op => some ⟨applyBalance br op, none, st.started⟩
      else none

/-- Run a schedule of events from a state; `none` when some event is not
enabled (blocked schedules are not observed executions). -/
def run (calls : List WalletOperation) :
    ExecState → List Event → Option ExecState
  | st, [] => some st
  | st, e :: evs =>
    match step calls st e with
    | none => none
    | some st2 => run calls st2 evs

/-- The lock-acquisition order of a schedule: the call indices in the
order their `start` events occur. -/
def startOrder (evs : List Event) : List ℕ :=
  evs.filterMap fun e =>
    match e with
    | Event.start i => some i
    | Event.finish _ => none

/-- The operations of the given calls in the given index order. -/
def opsAt (calls : List WalletOperation) (idxs : List ℕ) :
    List WalletOperation :=
  idxs.filterMap fun i => calls[i]?

/-! ## Concrete fixtures

Small concrete identifiers, amounts, stores and schedules used to
evaluate the model on explicit inputs. -/

/-- A concrete wallet identifier. -/
def wA : UUID := ⟨0, by norm_num⟩

/-- A second, distinct wallet identifier. -/
def wB : UUID := ⟨1, by norm_num⟩

/-- The empty wallet table. -/
def emptyStore : Store := fun _ => none

/-- A table holding one wallet `wA` with balance `5`. -/
def storeA : Store := Store.set emptyStore wA 5

/-- A table holding one freshly created wallet `wA` with balance `0`. -/
def store0 : Store := Store.set emptyStore wA 0

/-- A table holding one wallet `wA` with balance `0.10`. -/
def storeTen : Store := Store.set emptyStore wA (1 / 10)

/-- A wire amount whose binary64 value is exact and equal to its printed
decimal — faithful for amounts exactly representable in binary64, such
as `0`, `1`, `3`, `5`, `7` or `0.25`: parsing returns exactly `q` and
`str` prints exactly `q` back. -/
def exactAmount (q : ℚ) : FloatAmount :=
  ⟨q, q, fun h => h, fun _ _ _ h => h⟩

/-- The genuine parse of the wire amount `0.1` (or `0.10`): the nearest
binary64 to `0.1` is `3602879701896397 × 2⁻⁵⁵`, which is strictly above
`1/10`, and `str` of that float prints `0.1`, so
`Decimal(str(amount)) = 1/10`. -/
def amt01 : FloatAmount where
  val := 3602879701896397 / 36028797018963968
  dec := 1 / 10
  dec_pos := fun _ => by norm_num
  round_faithful := fun q _ _ h => le_trans (by norm_num) h

/-- A concrete identifier supply for `createMany`: the `n`-th create
draws identifier `n`. -/
def genSeq : ℕ → UUID := fun n => ⟨n % 2 ^ 128, Nat.mod_lt n (by norm_num)⟩

/-- A concrete complete two-call schedule: call 0 locks and commits,
then call 1 locks and commits. -/
def wEvs : List Event :=
  [Event.start 0, Event.finish 0, Event.start 1, Event.finish 1]

/-! ## Theorems -/

/-- Helper: scale-2 decimals are closed under addition. -/
theorem scale2_add {a b : ℚ} (ha : scale2 a) (hb : scale2 b) :
    scale2 (a + b) := by
  obtain ⟨k, hk⟩ := ha
  obtain ⟨m, hm⟩ := hb
  exact ⟨k + m, by rw [hk, hm, Int.cast_add]; ring⟩

/-- Helper: scale-2 decimals are closed under subtraction. -/
theorem scale2_sub {a b : ℚ} (ha : scale2 a) (hb : scale2 b) :
    scale2 (a - b) := by
  obtain ⟨k, hk⟩ := ha
  obtain ⟨m, hm⟩ := hb
  exact ⟨k - m, by rw [hk, hm, Int.cast_sub]; ring⟩

/-- Helper: rounding to scale 2 fixes values that already have scale 2. -/
theorem roundScale2_eq_self (q : ℚ) (h : scale2 q) : roundScale2 q = q := by
  obtain ⟨k, hk⟩ := h
  have hq100 : q * 100 = (k : ℚ) := by
    rw [hk]
    exact div_mul_cancel₀ _ (by norm_num)
  have hfloor : ∀ m : ℤ, ⌊(m : ℚ) + 1 / 2⌋ = m := fun m =>
    Int.floor_eq_iff.mpr ⟨by norm_num, by linarith⟩
  unfold roundScale2
  by_cases h0 : 0 ≤ q
  · rw [if_pos h0, hq100, hfloor k, hk]
  · have hq100n : -q * 100 = ((-k : ℤ) : ℚ) := by push_cast; linarith [hq100]
    rw [if_neg h0, hq100n, hfloor (-k), hk]
    push_cast
    ring

/-- Helper: rounding to scale 2 yields a scale-2 value. -/
theorem roundScale2_scale2 (q : ℚ) : scale2 (roundScale2 q) := by
  unfold roundScale2
  by_cases h0 : 0 ≤ q
  · rw [if_pos h0]
    exact ⟨_, rfl⟩
  · rw [if_neg h0]
    exact ⟨-⌊-q * 100 + 1 / 2⌋, by push_cast; ring⟩

/-- Helper: rounding a non-negative value to scale 2 is non-negative. -/
theorem roundScale2_nonneg (q : ℚ) (h : 0 ≤ q) : 0 ≤ roundScale2 q := by
  unfold roundScale2
  rw [if_pos h]
  have : (0 : ℤ) ≤ ⌊q * 100 + 1 / 2⌋ := Int.le_floor.mpr (by push_cast; linarith)
  positivity

/-- Helper: the column stores scale-2 in-range values unchanged. -/
theorem numericCommit_eq_self (q : ℚ) (h : scale2 q)
    (hb : |q| ≤ 99999999.99) : numericCommit q = some q := by
  unfold numericCommit
  rw [roundScale2_eq_self q h, if_pos hb]

/-- Helper: whatever the column stores is a scale-2 in-range rounding of
the committed value. -/
theorem numericCommit_some (q r : ℚ) (h : numericCommit q = some r) :
    r = roundScale2 q ∧ scale2 r ∧ |r| ≤ 99999999.99 := by
  unfold numericCommit at h
  by_cases hle : |roundScale2 q| ≤ 99999999.99
  · rw [if_pos hle] at h
    cases h
    exact ⟨rfl, roundScale2_scale2 q, hle⟩
  · rw [if_neg hle] at h
    cases h

/-- Helper: a validated `DEPOSIT` on an existing wallet commits the
column's stored value and returns it. -/
theorem deposit_commits (w : UUID) (A : FloatAmount) (b r : ℚ)
    (s : Store) (hb : s w = some b) (hna : ¬ A.val ≤ 0)
    (hcm : numericCommit (b + A.dec) = some r) :
    (apply w ⟨OperationType.DEPOSIT, A⟩ s).result = ApplyResult.ok r ∧
    (apply w ⟨OperationType.DEPOSIT, A⟩ s).store = Store.set s w r := by
  constructor <;> simp [apply, hna, update_wallet_balance, hb, hcm]

/-- Helper: a validated `WITHDRAW` whose float guard fires raises
`Insufficient funds` and leaves the table untouched. -/
theorem withdraw_guard_fires (w : UUID) (A : FloatAmount) (b : ℚ)
    (s : Store) (hb : s w = some b) (hna : ¬ A.val ≤ 0)
    (hlt : b < A.val) :
    (apply w ⟨OperationType.WITHDRAW, A⟩ s).result =
      ApplyResult.insufficientFunds ∧
    (apply w ⟨OperationType.WITHDRAW, A⟩ s).store = s := by
  constructor <;> simp [apply, hna, update_wallet_balance, hb, hlt]

/-- C5: for every wallet identifier and every operation whose float
amount is zero or negative, the route rejects the request with
`InvalidAmount` before any lock is taken (`lockTaken = false`, pydantic
validation runs before the handler) and the wallet table is unchanged. -/
theorem nonpositive_amount_rejected_before_lock (w : UUID)
    (op : WalletOperation) (s : Store) (h : op.amount.val ≤ 0) :
    apply w op s =
      { result := ApplyResult.invalidAmount, store := s, lockTaken := false } := by
  simp [apply, h]

/-- Witness for C5 at amount `0` on the empty table. -/
theorem nonpositive_amount_rejected_before_lock_witness :
    (exactAmount 0).val ≤ 0 ∧
    apply wA ⟨OperationType.WITHDRAW, exactAmount 0⟩ emptyStore =
      { result := ApplyResult.invalidAmount, store := emptyStore,
        lockTaken := false } :=
  ⟨le_refl 0,
    nonpositive_amount_rejected_before_lock wA
      ⟨OperationType.WITHDRAW, exactAmount 0⟩ emptyStore (le_refl 0)⟩

/-- C2: for an existing wallet whose stored balance has the column's
invariant (scale 2, in range, non-negative), a `WITHDRAW` whose wire
amount is strictly greater than the current balance returns
`InsufficientFunds` and the whole wallet table — this wallet and every
other one — is exactly the table from before the call: since no scale-2
balance lies between the amount's binary64 value and its printed
decimal, the source's float guard fires. -/
theorem withdraw_insufficient_funds_no_mutation (w : UUID)
    (A : FloatAmount) (b : ℚ) (s : Store) (hb : s w = some b)
    (hscale : scale2 b) (hb0 : 0 ≤ b) (hcap : b ≤ 99999999.99)
    (h : b < A.dec) :
    update_wallet_balance w ⟨OperationType.WITHDRAW, A⟩ s =
      (ApplyResult.insufficientFunds, s) := by
  have habs : |b| ≤ 10 ^ 9 := by
    rw [abs_le]
    constructor <;> linarith [show (99999999.99 : ℚ) ≤ 10 ^ 9 from by norm_num]
  have hlt : b < A.val := by
    by_contra hge
    exact absurd (A.round_faithful b hscale habs (not_lt.mp hge))
      (not_le.mpr h)
  simp [update_wallet_balance, hb, hlt]

/-- Witness for C2: withdrawing `7` from wallet `wA` holding `5`. -/
theorem withdraw_insufficient_funds_no_mutation_witness :
    storeA wA = some 5 ∧ (5 : ℚ) < (exactAmount 7).dec ∧
    update_wallet_balance wA ⟨OperationType.WITHDRAW, exactAmount 7⟩
      storeA = (ApplyResult.insufficientFunds, storeA) := by
  have hb : storeA wA = some 5 := by decide
  exact ⟨hb, by norm_num [exactAmount],
    withdraw_insufficient_funds_no_mutation wA (exactAmount 7) 5 storeA hb
      ⟨500, by norm_num⟩ (by norm_num) (by norm_num)
      (by norm_num [exactAmount])⟩

/-- C4 counterexample: with balance `0.10`, a `WITHDRAW` of wire amount
`0.10` (parsed float `0.1`, whose binary64 value strictly exceeds
`1/10`) is rejected with `InsufficientFunds` although the balance is not
strictly less than the amount — refuting both the claimed
fails-iff-`balance < a` equivalence and the claimed success of
withdrawing an amount exactly equal to the balance. -/
theorem withdraw_exact_balance_rejected :
    storeTen wA = some (1 / 10) ∧ ¬ ((1 : ℚ) / 10 < 1 / 10) ∧
    (apply wA ⟨OperationType.WITHDRAW, amt01⟩ storeTen).result =
      ApplyResult.insufficientFunds ∧
    (apply wA ⟨OperationType.WITHDRAW, amt01⟩ storeTen).store wA =
      some (1 / 10) := by
  have h1 : storeTen wA = some (1 / 10) := by simp [storeTen, Store.set]
  have hval : ¬ amt01.val ≤ 0 := by norm_num [amt01]
  have hguard : (1 : ℚ) / 10 < amt01.val := by norm_num [amt01]
  have hwd := withdraw_guard_fires wA amt01 (1 / 10) storeTen h1 hval hguard
  refine ⟨h1, by norm_num, hwd.1, ?_⟩
  rw [hwd.2]
  exact h1

/-- C4 amended: for an existing wallet with stored (scale-2, in-range,
non-negative) balance `b` and a validated scale-2 wire amount, a
`WITHDRAW` fails with `InsufficientFunds` exactly when `b` is less than
the amount's binary64 value (the guard of `wallets.py` compares the
stored decimal against the raw float); when the float guard passes, the
withdraw succeeds and stores exactly `b` minus the amount's decimal
value. -/
theorem withdraw_guard_is_float (w : UUID) (A : FloatAmount) (b : ℚ)
    (s : Store) (hb : s w = some b) (hval : 0 < A.val)
    (hdec : scale2 A.dec) (hscale : scale2 b) (hb0 : 0 ≤ b)
    (hcap : b ≤ 99999999.99) :
    ((apply w ⟨OperationType.WITHDRAW, A⟩ s).result =
        ApplyResult.insufficientFunds ↔ b < A.val) ∧
    (A.val ≤ b →
      0 ≤ b - A.dec ∧
      (apply w ⟨OperationType.WITHDRAW, A⟩ s).result =
        ApplyResult.ok (b - A.dec) ∧
      (apply w ⟨OperationType.WITHDRAW, A⟩ s).store w =
        some (b - A.dec)) := by
  have hna : ¬ A.val ≤ 0 := not_le.mpr hval
  have habs : |b| ≤ 10 ^ 9 := by
    rw [abs_le]
    constructor <;> linarith [show (99999999.99 : ℚ) ≤ 10 ^ 9 from by norm_num]
  have hpos : 0 < A.dec := A.dec_pos hval
  have hkey : A.val ≤ b → numericCommit (b - A.dec) = some (b - A.dec) := by
    intro hgel
    have hd : A.dec ≤ b := A.round_faithful b hscale habs hgel
    refine numericCommit_eq_self _ (scale2_sub hscale hdec) ?_
    rw [abs_le]
    constructor <;> linarith [show (0 : ℚ) ≤ 99999999.99 from by norm_num]
  constructor
  · constructor
    · intro hres
      by_contra hge
      have hnlt : ¬ b < A.val := hge
      simp [apply, hna, update_wallet_balance, hb, hnlt,
        hkey (not_lt.mp hge)] at hres
    · intro hlt
      simp [apply, hna, update_wallet_balance, hb, hlt]
  · intro hgel
    have hd : A.dec ≤ b := A.round_faithful b hscale habs hgel
    have hnlt : ¬ b < A.val := not_lt.mpr hgel
    refine ⟨by linarith, ?_, ?_⟩ <;>
      simp [apply, hna, update_wallet_balance, hb, hnlt, hkey hgel,
        Store.set]

/-- Witness for the amended C4: withdrawing `3` from wallet `wA`
holding `5` succeeds with new balance `2`. -/
theorem withdraw_guard_is_float_witness :
    storeA wA = some 5 ∧ (exactAmount 3).val ≤ 5 ∧
    (apply wA ⟨OperationType.WITHDRAW, exactAmount 3⟩ storeA).result =
      ApplyResult.ok 2 := by
  have hb : storeA wA = some 5 := by decide
  have h :=
    (withdraw_guard_is_float wA (exactAmount 3) 5 storeA hb
      (by norm_num [exactAmount]) ⟨300, by norm_num [exactAmount]⟩
      ⟨500, by norm_num⟩ (by norm_num) (by norm_num)).2
      (by norm_num [exactAmount])
  have h2 := h.2.1
  norm_num [exactAmount] at h2
  exact ⟨hb, by norm_num [exactAmount], h2⟩

/-- C1: every `apply` call — `DEPOSIT` or `WITHDRAW`, any amount —
preserves the stored invariant: starting from a table whose balances
are scale-2, in-range and non-negative (what the `Numeric(10, 2)`
column guarantees and the claim assumes), every balance after the call
is still scale-2, in-range and non-negative — no call commits or makes
observable a negative balance. -/
theorem apply_preserves_nonneg (w : UUID) (op : WalletOperation)
    (s : Store) (h : WellStored s) :
    WellStored ((apply w op s).store) := by
  intro w2 b2 hb2
  by_cases hval : op.amount.val ≤ 0
  · simp [apply, hval] at hb2
    exact h w2 b2 hb2
  · have hpos : 0 < op.amount.dec := op.amount.dec_pos (lt_of_not_ge hval)
    cases hw : s w with
    | none =>
      simp [apply, hval, update_wallet_balance, hw] at hb2
      exact h w2 b2 hb2
    | some b =>
      obtain ⟨hbs, hb0, hbc⟩ := h w b hw
      cases hop : op.operation_type with
      | DEPOSIT =>
        cases hcm : numericCommit (b + op.amount.dec) with
        | none =>
          simp [apply, hval, update_wallet_balance, hw, hop, hcm] at hb2
          exact h w2 b2 hb2
        | some r =>
          obtain ⟨hr, hrs, hrc⟩ := numericCommit_some _ _ hcm
          by_cases hww : w2 = w
          · subst hww
            simp [apply, hval, update_wallet_balance, hw, hop, hcm,
              Store.set] at hb2
            subst hb2
            refine ⟨hrs, ?_, (abs_le.mp hrc).2⟩
            rw [hr]
            exact roundScale2_nonneg _ (by linarith)
          · simp [apply, hval, update_wallet_balance, hw, hop, hcm,
              Store.set, hww] at hb2
            exact h w2 b2 hb2
      | WITHDRAW =>
        by_cases hlt : b < op.amount.val
        · simp [apply, hval, update_wallet_balance, hw, hop, hlt] at hb2
          exact h w2 b2 hb2
        · have habs : |b| ≤ 10 ^ 9 := by
            rw [abs_le]
            constructor <;>
              linarith [show (99999999.99 : ℚ) ≤ 10 ^ 9 from by norm_num]
          have hd : op.amount.dec ≤ b :=
            op.amount.round_faithful b hbs habs (not_lt.mp hlt)
          cases hcm : numericCommit (b - op.amount.dec) with
          | none =>
            simp [apply, hval, update_wallet_balance, hw, hop, hlt,
              hcm] at hb2
            exact h w2 b2 hb2
          | some r =>
            obtain ⟨hr, hrs, hrc⟩ := numericCommit_some _ _ hcm
            by_cases hww : w2 = w
            · subst hww
              simp [apply, hval, update_wallet_balance, hw, hop, hlt,
                hcm, Store.set] at hb2
              subst hb2
              refine ⟨hrs, ?_, (abs_le.mp hrc).2⟩
              rw [hr]
              exact roundScale2_nonneg _ (by linarith)
            · simp [apply, hval, update_wallet_balance, hw, hop, hlt,
                hcm, Store.set, hww] at hb2
              exact h w2 b2 hb2

/-- Witness for C1: after withdrawing `3` from wallet `wA` holding `5`,
the stored balance `2` is non-negative. -/
theorem apply_preserves_nonneg_witness :
    (apply wA ⟨OperationType.WITHDRAW, exactAmount 3⟩ storeA).store wA =
      some 2 ∧ (0 : ℚ) ≤ 2 := by
  have hws : WellStored storeA := by
    intro w2 b hb
    by_cases hw : w2 = wA
    · subst hw
      simp [storeA, Store.set] at hb
      rw [← hb]
      exact ⟨⟨500, by norm_num⟩, by norm_num, by norm_num⟩
    · simp [storeA, Store.set, emptyStore, hw] at hb
  have hb : storeA wA = some 5 := by decide
  have hval : ¬ (exactAmount 3).val ≤ 0 := by norm_num [exactAmount]
  have hnlt : ¬ (5 : ℚ) < (exactAmount 3).val := by norm_num [exactAmount]
  have hcm : numericCommit ((5 : ℚ) - (exactAmount 3).dec) = some 2 := by
    rw [show (5 : ℚ) - (exactAmount 3).dec = 2 by norm_num [exactAmount]]
    exact numericCommit_eq_self 2 ⟨200, by norm_num⟩
      (by rw [abs_le]; constructor <;> norm_num)
  have hstore :
      (apply wA ⟨OperationType.WITHDRAW, exactAmount 3⟩ storeA).store wA =
        some 2 := by
    simp [apply, hval, update_wallet_balance, hb, hnlt, hcm, Store.set]
  exact ⟨hstore,
    ((apply_preserves_nonneg wA ⟨OperationType.WITHDRAW, exactAmount 3⟩
      storeA hws) wA 2 hstore).2.1⟩

/-- C3 (code bug): evaluating the code at the failing input.  On a
freshly created wallet (balance `0.00`), a `DEPOSIT` of wire amount
`0.10` succeeds and stores `0.10`, but the immediately following
`WITHDRAW` of the same wire amount `0.10` is rejected with
`InsufficientFunds` — the guard of `wallets.py` evaluates
`Decimal('0.10') < float(0.1)`, which is true because the binary64
value of `0.1` strictly exceeds `1/10` — so the round-trip does not
restore the original balance: the wallet is left holding `0.10`. -/
theorem roundtrip_fails_at_ten_cents :
    (apply wA ⟨OperationType.DEPOSIT, amt01⟩ store0).result =
      ApplyResult.ok (1 / 10) ∧
    (apply wA ⟨OperationType.WITHDRAW, amt01⟩
      ((apply wA ⟨OperationType.DEPOSIT, amt01⟩ store0).store)).result =
      ApplyResult.insufficientFunds ∧
    (apply wA ⟨OperationType.WITHDRAW, amt01⟩
      ((apply wA ⟨OperationType.DEPOSIT, amt01⟩ store0).store)).store wA =
      some (1 / 10) := by
  have hval : ¬ amt01.val ≤ 0 := by norm_num [amt01]
  have h0 : store0 wA = some 0 := by decide
  have hcm : numericCommit ((0 : ℚ) + amt01.dec) = some (1 / 10) := by
    rw [show (0 : ℚ) + amt01.dec = 1 / 10 by norm_num [amt01]]
    exact numericCommit_eq_self _ ⟨10, by norm_num⟩
      (by rw [abs_le]; constructor <;> norm_num)
  have hdep := deposit_commits wA amt01 0 (1 / 10) store0 h0 hval hcm
  have h1 : Store.set store0 wA (1 / 10) wA = some (1 / 10) := by
    simp [Store.set]
  have hguard : (1 : ℚ) / 10 < amt01.val := by norm_num [amt01]
  have hwd := withdraw_guard_fires wA amt01 (1 / 10)
    (Store.set store0 wA (1 / 10)) h1 hval hguard
  refine ⟨hdep.1, ?_, ?_⟩
  · rw [hdep.2]
    exact hwd.1
  · rw [hdep.2, hwd.2]
    exact h1

/-- C7: `delete_wallet` removes an existing wallet unconditionally —
whatever its balance — leaving every other wallet untouched, a
subsequent `get_wallet_balance` on the same identifier returns
`NotFound`, and it returns `NotFound` (with the table unchanged) exactly
when no wallet with the identifier exists. -/
theorem delete_wallet_unconditional (w : UUID) (s : Store) :
    (∀ b : ℚ, s w = some b →
      (delete_wallet w s).1 = DeleteResult.ok ∧
      (delete_wallet w s).2 w = none ∧
      get_wallet_balance w (delete_wallet w s).2 = GetResult.notFound ∧
      ∀ w2, w2 ≠ w → (delete_wallet w s).2 w2 = s w2) ∧
    (s w = none → delete_wallet w s = (DeleteResult.notFound, s)) := by
  constructor
  · intro b hb
    refine ⟨by simp [delete_wallet, hb], ?_, ?_, ?_⟩
    · simp [delete_wallet, hb, Store.erase]
    · simp [delete_wallet, hb, Store.erase, get_wallet_balance]
    · intro w2 hw2
      simp [delete_wallet, hb, Store.erase, hw2]
  · intro hb
    simp [delete_wallet, hb]

/-- Witness for C7: deleting wallet `wA` (balance `5`, nonzero) succeeds
and a subsequent get returns `NotFound`. -/
theorem delete_wallet_unconditional_witness :
    storeA wA = some 5 ∧
    (delete_wallet wA storeA).1 = DeleteResult.ok ∧
    get_wallet_balance wA (delete_wallet wA storeA).2 =
      GetResult.notFound :=
  ⟨by decide,
    ((delete_wallet_unconditional wA storeA).1 5 (by decide)).1,
    ((delete_wallet_unconditional wA storeA).1 5 (by decide)).2.2.1⟩

/-- C10: a `DEPOSIT` on an existing wallet never fails with a domain
error for any validated amount — the engine checks no maximum amount
and no maximum balance — and for stored balances and scale-2 amounts
whose sum stays within the `Numeric(10, 2)` range it returns and stores
exactly the old balance plus the amount's decimal value; beyond that
range only the storage layer objects (numeric overflow, a storage
error, not a domain error), and representable column values can indeed
sum past the column's `99999999.99` cap. -/
theorem deposit_never_domain_error (w : UUID) (A : FloatAmount) (b : ℚ)
    (s : Store) (hb : s w = some b) (hval : 0 < A.val)
    (hdec : scale2 A.dec) (hscale : scale2 b) (hsum0 : 0 ≤ b + A.dec)
    (hsumcap : b + A.dec ≤ 99999999.99) :
    (apply w ⟨OperationType.DEPOSIT, A⟩ s).result =
      ApplyResult.ok (b + A.dec) ∧
    (apply w ⟨OperationType.DEPOSIT, A⟩ s).store w = some (b + A.dec) ∧
    (∀ (A2 : FloatAmount) (b2 : ℚ) (s2 : Store) (w2 : UUID),
      s2 w2 = some b2 → 0 < A2.val →
      (apply w2 ⟨OperationType.DEPOSIT, A2⟩ s2).result ≠
        ApplyResult.insufficientFunds ∧
      (apply w2 ⟨OperationType.DEPOSIT, A2⟩ s2).result ≠
        ApplyResult.invalidAmount) ∧
    ∃ b3 a3 : ℚ, 0 ≤ b3 ∧ Numeric10_2 b3 ∧ 0 < a3 ∧ Numeric10_2 a3 ∧
      ¬ Numeric10_2 (b3 + a3) := by
  have hna : ¬ A.val ≤ 0 := not_le.mpr hval
  have h99 : (0 : ℚ) ≤ 99999999.99 := by norm_num
  have hcm : numericCommit (b + A.dec) = some (b + A.dec) :=
    numericCommit_eq_self _ (scale2_add hscale hdec)
      (by rw [abs_le]; exact ⟨by linarith, hsumcap⟩)
  refine ⟨by simp [apply, hna, update_wallet_balance, hb, hcm],
    by simp [apply, hna, update_wallet_balance, hb, hcm, Store.set],
    ?_, ?_⟩
  · intro A2 b2 s2 w2 hb2 hval2
    have hna2 : ¬ A2.val ≤ 0 := not_le.mpr hval2
    cases hcm2 : numericCommit (b2 + A2.dec) with
    | none => simp [apply, hna2, update_wallet_balance, hb2, hcm2]
    | some r => simp [apply, hna2, update_wallet_balance, hb2, hcm2]
  · refine ⟨99999999.99, 0.01, by norm_num, ⟨9999999999, by norm_num⟩,
      by norm_num, ⟨1, by norm_num⟩, ?_⟩
    rintro ⟨k, hk, hkb⟩
    have hsum : (99999999.99 : ℚ) + 0.01 = 100000000 := by norm_num
    rw [hsum] at hk
    have hk2 : (k : ℚ) = 10000000000 := by
      field_simp at hk
      linarith
    have hk3 : k = 10000000000 := by exact_mod_cast hk2
    rw [hk3] at hkb
    norm_num at hkb

/-- Witness for C10: depositing `3` on wallet `wA` holding `5` yields
balance `8`. -/
theorem deposit_never_domain_error_witness :
    storeA wA = some 5 ∧ 0 < (exactAmount 3).val ∧
    (apply wA ⟨OperationType.DEPOSIT, exactAmount 3⟩ storeA).result =
      ApplyResult.ok 8 := by
  have hb : storeA wA = some 5 := by decide
  have h :=
    (deposit_never_domain_error wA (exactAmount 3) 5 storeA hb
      (by norm_num [exactAmount]) ⟨300, by norm_num [exactAmount]⟩
      ⟨500, by norm_num⟩ (by norm_num [exactAmount])
      (by norm_num [exactAmount])).1
  norm_num [exactAmount] at h
  exact ⟨hb, by norm_num [exactAmount], h⟩

/-- C6 counterexample: the `amount` field of `WalletOperation` crosses
the wire as a binary floating-point value (`amount: float` in
`app/schemas.py`), refuting the claim that monetary values are never
round-tripped through a binary floating-point representation at any
stage. -/
theorem amount_crosses_wire_as_binary_float :
    WalletOperation.amountWireType = WireType.binaryFloat ∧
    WalletOperation.amountWireType ≠ WireType.decimalText :=
  ⟨rfl, by decide⟩

/-- C6 amended: `amount` and `balance` cross the external interface as
binary floating-point fields (`float` in `WalletOperation` and
`WalletResponse`), while the engine's internal arithmetic on the stored
decimal balance is exact — a deposit of a scale-2 amount whose sum stays
in the column range stores exactly the old balance plus the amount's
decimal value. -/
theorem wire_float_engine_decimal :
    WalletOperation.amountWireType = WireType.binaryFloat ∧
    WalletResponse.balanceWireType = WireType.binaryFloat ∧
    ∀ (w : UUID) (A : FloatAmount) (b : ℚ) (s : Store),
      scale2 b → scale2 A.dec → 0 ≤ b + A.dec →
      b + A.dec ≤ 99999999.99 →
      (update_wallet_balance w ⟨OperationType.DEPOSIT, A⟩
        (Store.set s w b)).1 = ApplyResult.ok (b + A.dec) := by
  refine ⟨rfl, rfl, fun w A b s hscale hdec hsum0 hsumcap => ?_⟩
  have h99 : (0 : ℚ) ≤ 99999999.99 := by norm_num
  have hcm : numericCommit (b + A.dec) = some (b + A.dec) :=
    numericCommit_eq_self _ (scale2_add hscale hdec)
      (by rw [abs_le]; exact ⟨by linarith, hsumcap⟩)
  simp [update_wallet_balance, Store.set, hcm]

/-- Witness for the amended C6: depositing `3` on a stored balance `5`
returns exactly `8`. -/
theorem wire_float_engine_decimal_witness :
    (update_wallet_balance wA ⟨OperationType.DEPOSIT, exactAmount 3⟩
      (Store.set emptyStore wA 5)).1 = ApplyResult.ok 8 := by
  have h := wire_float_engine_decimal.2.2 wA (exactAmount 3) 5 emptyStore
    ⟨500, by norm_num⟩ ⟨300, by norm_num [exactAmount]⟩
    (by norm_num [exactAmount]) (by norm_num [exactAmount])
  norm_num [exactAmount] at h
  exact h

/-- Helper: the identifiers returned by `createMany` are the generated
ones, most recent first. -/
theorem createMany_fst (gen : ℕ → UUID) (s : Store) :
    ∀ k : ℕ, (createMany gen k s).1 = ((List.range k).reverse).map gen := by
  intro k
  induction k with
  | zero => simp [createMany]
  | succ n ih => simp [createMany, ih, List.range_succ]

/-- Helper: after `k` creates with identifiers fresh among themselves,
each created wallet is stored with balance `0`. -/
theorem createMany_lookup (gen : ℕ → UUID) (s : Store) :
    ∀ k : ℕ, (∀ i j, i < k → j < k → gen i = gen j → i = j) →
      ∀ n, n < k → (createMany gen k s).2 (gen n) = some 0 := by
  intro k
  induction k with
  | zero => intro _ n hn; exact absurd hn (Nat.not_lt_zero n)
  | succ m ih =>
    intro hinj n hn
    by_cases hnm : n = m
    · subst hnm
      simp [createMany, create_wallet, Store.set]
    · have hn2 : n < m := by omega
      have hne : gen n ≠ gen m := fun he =>
        hnm (hinj n m (by omega) (by omega) he)
      simp [createMany, create_wallet, Store.set, hne]
      exact ih (fun i j hi hj => hinj i j (by omega) (by omega)) n hn2

/-- C9: every create call yields a wallet with balance exactly `0`, and
a sequence of `k` creates whose (128-bit) generated identifiers are
fresh — `uuid.uuid4` modelled as an identifier supply that does not
repeat over the run — returns `k` pairwise-distinct identifiers, each
stored with balance `0`. -/
theorem create_wallets_zero_balance_fresh_ids (gen : ℕ → UUID) (k : ℕ)
    (s : Store) (hinj : ∀ i j, i < k → j < k → gen i = gen j → i = j) :
    (∀ (id2 : UUID) (s2 : Store), (create_wallet id2 s2).1 = 0) ∧
    (createMany gen k s).1.length = k ∧
    (createMany gen k s).1.Nodup ∧
    ∀ n, n < k → (createMany gen k s).2 (gen n) = some 0 := by
  refine ⟨fun id2 s2 => rfl, ?_, ?_, createMany_lookup gen s k hinj⟩
  · rw [createMany_fst]
    simp
  · rw [createMany_fst]
    refine List.Nodup.map_on ?_ ?_
    · intro x hx y hy hxy
      rw [List.mem_reverse, List.mem_range] at hx hy
      exact hinj x y hx hy hxy
    · rw [List.nodup_reverse]
      exact List.nodup_range k

/-- Witness for C9: two creates with the concrete supply `genSeq` yield
two distinct identifiers, and the first wallet holds balance `0`. -/
theorem create_wallets_zero_balance_fresh_ids_witness :
    (createMany genSeq 2 emptyStore).1.length = 2 ∧
    (createMany genSeq 2 emptyStore).1.Nodup ∧
    (createMany genSeq 2 emptyStore).2 (genSeq 0) = some 0 := by
  have hinj : ∀ i j, i < 2 → j < 2 → genSeq i = genSeq j → i = j := by
    intro i j hi hj h
    interval_cases i <;> interval_cases j <;>
      first
      | rfl
      | exact absurd h (by decide)
  exact
    ⟨(create_wallets_zero_balance_fresh_ids genSeq 2 emptyStore hinj).2.1,
      (create_wallets_zero_balance_fresh_ids genSeq 2 emptyStore hinj).2.2.1,
      (create_wallets_zero_balance_fresh_ids genSeq 2 emptyStore hinj).2.2.2
        0 (by norm_num)⟩

/-- Helper: a `start` event puts its index at the head of the
lock-acquisition order. -/
theorem startOrder_start (i : ℕ) (evs : List Event) :
    startOrder (Event.start i :: evs) = i :: startOrder evs := by
  simp [startOrder]

/-- Helper: a `finish` event does not change the lock-acquisition
order. -/
theorem startOrder_finish (i : ℕ) (evs : List Event) :
    startOrder (Event.finish i :: evs) = startOrder evs := by
  simp [startOrder]

/-- Helper: resolving the head index of an operation order. -/
theorem opsAt_cons (calls : List WalletOperation) (i : ℕ) (idxs : List ℕ)
    (op : WalletOperation) (h : calls[i]? = some op) :
    opsAt calls (i :: idxs) = op :: opsAt calls idxs := by
  simp [opsAt, h]

/-- Helper (serializability): any completed schedule — every event
enabled, lock free at the end — leaves the balance of a serial
execution of the calls in lock-acquisition order.  The two conjuncts
track whether the lock is free or held at the start of the remaining
schedule. -/
theorem run_serial (calls : List WalletOperation) (evs : List Event) :
    ∀ st st2 : ExecState,
      run calls st evs = some st2 → st2.holder = none →
      (st.holder = none →
        st2.balance =
          (opsAt calls (startOrder evs)).foldl applyBalance st.balance) ∧
      (∀ i br op, st.holder = some (i, br) → calls[i]? = some op →
        st2.balance =
          (opsAt calls (startOrder evs)).foldl applyBalance
            (applyBalance br op)) := by
  induction evs with
  | nil =>
    intro st st2 hrun hhold
    have hst : st = st2 := by simpa [run] using hrun
    subst hst
    constructor
    · intro _
      simp [startOrder, opsAt]
    · intro i br op hh _
      rw [hh] at hhold
      exact absurd hhold (by simp)
  | cons e evs ih =>
    intro st st2 hrun hhold
    simp only [run] at hrun
    cases e with
    | start i =>
      constructor
      · intro hnone
        simp only [step, hnone] at hrun
        by_cases hmem : i ∈ st.started
        · simp [hmem] at hrun
        · simp only [hmem, if_false] at hrun
          cases hcall : calls[i]? with
          | none =>
            rw [hcall] at hrun
            simp at hrun
          | some op =>
            rw [hcall] at hrun
            simp only [] at hrun
            have h2 :=
              (ih ⟨st.balance, some (i, st.balance), i :: st.started⟩ st2
                hrun hhold).2 i st.balance op rfl hcall
            rw [startOrder_start, opsAt_cons calls i _ op hcall,
              List.foldl_cons]
            exact h2
      · intro i2 br op hh hop
        simp only [step, hh] at hrun
        simp at hrun
    | finish i =>
      constructor
      · intro hnone
        simp only [step, hnone] at hrun
        simp at hrun
      · intro i2 br op hh hop
        simp only [step, hh] at hrun
        by_cases hii : i = i2
        · subst hii
          rw [if_pos rfl, hop] at hrun
          simp only [] at hrun
          have h1 :=
            (ih ⟨applyBalance br op, none, st.started⟩ st2 hrun hhold).1 rfl
          rw [startOrder_finish]
          exact h1
        · rw [if_neg hii] at hrun
          simp at hrun

/-- Helper: selecting any in-range indices from a replicated call list
yields that many copies of the replicated call. -/
theorem opsAt_replicate (N : ℕ) (op : WalletOperation) :
    ∀ idxs : List ℕ, (∀ i ∈ idxs, i < N) →
      opsAt (List.replicate N op) idxs = List.replicate idxs.length op := by
  intro idxs
  induction idxs with
  | nil =>
    intro _
    simp [opsAt]
  | cons i t ih =>
    intro h
    have hi : i < N := h i (List.mem_cons_self i t)
    have hlook : (List.replicate N op)[i]? = some op := by
      rw [List.getElem?_replicate]
      simp [hi]
    rw [opsAt_cons _ _ _ _ hlook, List.length_cons, List.replicate_succ,
      ih (fun j hj => h j (List.mem_cons_of_mem i hj))]

/-- Helper: a serial execution of `N` deposits of a positive scale-2
amount from a scale-2 non-negative balance, whose total stays within
the column range, adds exactly `N` times the amount's decimal value
(each commit is of a scale-2 in-range value, so the column stores it
unchanged). -/
theorem foldl_deposit_replicate (A : FloatAmount) (hd : scale2 A.dec)
    (hp : 0 < A.dec) :
    ∀ (N : ℕ) (b : ℚ), scale2 b → 0 ≤ b →
      b + N * A.dec ≤ 99999999.99 →
      (List.replicate N ⟨OperationType.DEPOSIT, A⟩).foldl applyBalance b =
        b + N * A.dec := by
  intro N
  induction N with
  | zero =>
    intro b _ _ _
    simp
  | succ n ih =>
    intro b hb hb0 hcap
    have hcap2 : b + A.dec + (n : ℚ) * A.dec ≤ 99999999.99 := by
      push_cast at hcap
      linarith
    have hstep : applyBalance b ⟨OperationType.DEPOSIT, A⟩ = b + A.dec := by
      have hn0 : (0 : ℚ) ≤ (n : ℚ) * A.dec := by positivity
      have h99 : (0 : ℚ) ≤ 99999999.99 := by norm_num
      have hcm : numericCommit (b + A.dec) = some (b + A.dec) :=
        numericCommit_eq_self _ (scale2_add hb hd)
          (by rw [abs_le]; constructor <;> linarith)
      simp [applyBalance, hcm]
    rw [List.replicate_succ, List.foldl_cons, hstep,
      ih (b + A.dec) (scale2_add hb hd) (by linarith) hcap2]
    push_cast
    ring

/-- C8: the row lock makes every completed concurrent execution of
`apply` calls against one wallet equivalent to a serial one — the final
balance is the serial fold of the calls in lock-acquisition order (no
two calls can read the same balance and both commit, since `step`
refuses a second lock acquisition while the lock is held) — and in
particular `N` concurrent `DEPOSIT` calls of a positive scale-2 amount
whose total fits the column against a freshly created wallet (balance
`0`) leave exactly `N` times the amount, whatever the arrival order. -/
theorem concurrent_applies_serialize (calls : List WalletOperation)
    (b0 : ℚ) (A : FloatAmount) (N : ℕ) (evs : List Event)
    (st2 : ExecState) (hrun : run calls ⟨b0, none, []⟩ evs = some st2)
    (hdone : st2.holder = none) :
    st2.balance = (opsAt calls (startOrder evs)).foldl applyBalance b0 ∧
    (calls = List.replicate N ⟨OperationType.DEPOSIT, A⟩ → b0 = 0 →
      scale2 A.dec → 0 < A.dec → (N : ℚ) * A.dec ≤ 99999999.99 →
      (startOrder evs).Perm (List.range N) →
      st2.balance = N * A.dec) := by
  have hser := (run_serial calls evs ⟨b0, none, []⟩ st2 hrun hdone).1 rfl
  refine ⟨hser, fun hcalls hb0 hdec hpos hcap hperm => ?_⟩
  subst hcalls
  subst hb0
  have hmem : ∀ i ∈ startOrder evs, i < N := fun i hi =>
    List.mem_range.mp (hperm.mem_iff.mp hi)
  have hlen : (startOrder evs).length = N := by
    rw [hperm.length_eq, List.length_range]
  rw [hser, opsAt_replicate N _ (startOrder evs) hmem, hlen,
    foldl_deposit_replicate A hdec hpos N 0 ⟨0, by norm_num⟩ le_rfl
      (by simpa using hcap)]
  simp

/-- Witness for C8: two concurrent deposits of `1` on a fresh wallet,
scheduled as call 0 then call 1, end with balance `2 = 2 * 1`. -/
theorem concurrent_applies_serialize_witness :
    run (List.replicate 2 ⟨OperationType.DEPOSIT, exactAmount 1⟩)
      ⟨0, none, []⟩ wEvs = some ⟨2, none, [1, 0]⟩ ∧
    (ExecState.mk 2 none [1, 0]).balance =
      ((2 : ℕ) : ℚ) * (exactAmount 1).dec := by
  have ha1 : applyBalance 0 ⟨OperationType.DEPOSIT, exactAmount 1⟩ = 1 := by
    have hcm : numericCommit ((exactAmount 1).dec) = some 1 := by
      rw [show (exactAmount 1).dec = 1 by norm_num [exactAmount]]
      exact numericCommit_eq_self 1 ⟨100, by norm_num⟩
        (by rw [abs_le]; constructor <;> norm_num)
    simp [applyBalance, hcm]
  have ha2 : applyBalance 1 ⟨OperationType.DEPOSIT, exactAmount 1⟩ = 2 := by
    have hcm : numericCommit ((1 : ℚ) + (exactAmount 1).dec) = some 2 := by
      rw [show (1 : ℚ) + (exactAmount 1).dec = 2 by norm_num [exactAmount]]
      exact numericCommit_eq_self 2 ⟨200, by norm_num⟩
        (by rw [abs_le]; constructor <;> norm_num)
    simp [applyBalance, hcm]
  have hrun : run (List.replicate 2 ⟨OperationType.DEPOSIT, exactAmount 1⟩)
      ⟨0, none, []⟩ wEvs = some ⟨2, none, [1, 0]⟩ := by
    simp [run, step, wEvs, List.replicate, ha1, ha2]
  have hperm : (startOrder wEvs).Perm (List.range 2) := by decide
  exact ⟨hrun,
    (concurrent_applies_serialize _ 0 (exactAmount 1) 2 wEvs
      ⟨2, none, [1, 0]⟩ hrun rfl).2 rfl rfl
      ⟨100, by norm_num [exactAmount]⟩ (by norm_num [exactAmount])
      (by push_cast; norm_num [exactAmount]) hperm⟩

end FastAPIWallets
